import Mathlib

/-!
# Verification of the v-chat RAG application

A shallow embedding, in Lean 4, of the parts of the `v-chat` repository that
the specification's claims are about:

* the retrieval service (`retrieval.service.ts`): pgvector similarity search,
  threshold filtering, top-K limiting, document filtering;
* the document upload pipeline (`documents.routes.ts`): paragraph chunking
  (`chunkText`), token estimation, chunk-record creation;
* the completion service (`completion.service.ts`): prompt assembly from
  system prompt, retrieved context and conversation history;
* the SSE streaming endpoint (`chat.controller.ts`) and the client-side
  stream reassembly (`use-chat-streaming.ts`);
* the central error middleware (`error.middleware.ts`);
* the chat service user scoping (`chat.service.ts`);
* the client chat store (`chat-store.ts`).

JavaScript strings are modelled as `List Char`; JavaScript numbers appearing
in exact comparisons are modelled as `ℚ`; database rows and external services
(the embedding API, the completion API, `JSON.parse` of source arrays, the
cosine-distance computation done inside PostgreSQL) are modelled as explicit
parameters.  Fallible steps return `Option`.
-/

namespace VChat

/-! ## Retrieval service (`retrieval.service.ts`)

The `document_chunks` table is modelled as a list of rows; the cosine
distance `embedding <=> query` computed by pgvector is an abstract parameter
`dist`, and the hosted embedding API (`embeddingsService.embed`) is an
abstract parameter `embedOf`. -/

/-- A row of the `document_chunks` table as seen by the raw SQL queries in
`retrievalService.search`: `id`, `content`, `documentId`, an optional
`metadata` blob (kept opaque) and an optional vector `embedding`. -/
structure DocumentChunkRow where
  id : String
  content : String
  documentId : String
  metadata : Option String
  embedding : Option (List ℚ)
  deriving Repr, DecidableEq

/-- The `RawSearchResult` row type used inside `retrievalService.search`. -/
structure RawSearchResult where
  id : String
  content : String
  documentId : String
  metadata : Option String
  similarity : ℚ
  deriving Repr, DecidableEq

/-- `SearchResult` from `retrieval.types.ts`. -/
structure SearchResult where
  id : String
  content : String
  score : ℚ
  documentId : String
  metadata : Option String
  deriving Repr, DecidableEq

/-- `RetrievalOptions` from `retrieval.types.ts`: all three fields are
optional. -/
structure RetrievalOptions where
  topK : Option Nat := none
  threshold : Option ℚ := none
  documentIds : Option (List String) := none

/-- The cosine distance `embedding <=> query` of a row, given the abstract
distance function `dist`; rows without an embedding are filtered out by the
SQL `WHERE embedding IS NOT NULL` before this is ever used, so the `none`
branch is arbitrary. -/
def rowDistance (dist : List ℚ → List ℚ → ℚ) (queryEmb : List ℚ) (c : DocumentChunkRow) : ℚ :=
  match c.embedding with
  | some e => dist queryEmb e
  | none => 0

/-- The raw SQL query issued by `retrievalService.search` (lines 50-79):
keep rows with a non-null embedding, additionally filter by
`"documentId" = ANY(documentIds)` when `documentIds` is present and
non-empty, order by ascending cosine distance to the query embedding, and
`LIMIT topK`; each selected row carries `similarity = 1 - distance`. -/
def vectorQuery (dist : List ℚ → List ℚ → ℚ) (db : List DocumentChunkRow)
    (queryEmb : List ℚ) (topK : Nat) (documentIds : Option (List String)) :
    List RawSearchResult :=
  let keep : DocumentChunkRow → Bool :=
    match documentIds with
    | some ids =>
        if ids.length > 0 then
          fun c => c.embedding.isSome && c.documentId ∈ ids
        else
          fun c => c.embedding.isSome
    | none => fun c => c.embedding.isSome
  let sorted := (db.filter keep).insertionSort
    (fun a b => rowDistance dist queryEmb a ≤ rowDistance dist queryEmb b)
  (sorted.take topK).map (fun c =>
    { id := c.id
      content := c.content
      documentId := c.documentId
      metadata := c.metadata
      similarity := 1 - rowDistance dist queryEmb c })

/-- `retrievalService.search` (lines 27-90): defaults `topK = 5` and
`threshold = 0.7`, embeds the query via the hosted embedding API `embedOf`,
runs the vector query, keeps only results with `similarity >= threshold`,
and maps rows to `SearchResult`s (`metadata ?? undefined` collapses to the
same `Option`). -/
def search (dist : List ℚ → List ℚ → ℚ) (embedOf : String → List ℚ)
    (db : List DocumentChunkRow) (query : String)
    (options : RetrievalOptions) : List SearchResult :=
  let topK := options.topK.getD 5
  let threshold := options.threshold.getD (7/10)
  let queryEmb := embedOf query
  let results := vectorQuery dist db queryEmb topK options.documentIds
  (results.filter (fun r => r.similarity ≥ threshold)).map (fun r =>
    { id := r.id
      content := r.content
      score := r.similarity
      documentId := r.documentId
      metadata := r.metadata })

/-- Key-based sorting produces a list that is pairwise ordered by the key. -/
theorem pairwise_insertionSort_key {α : Type} (key : α → ℚ) (l : List α) :
    (l.insertionSort (fun a b => key a ≤ key b)).Pairwise (fun a b => key a ≤ key b) := by
  haveI : IsTotal α (fun a b => key a ≤ key b) := ⟨fun a b => le_total (key a) (key b)⟩
  haveI : IsTrans α (fun a b => key a ≤ key b) := ⟨fun _ _ _ => le_trans⟩
  exact List.sorted_insertionSort _ l

/-- **C1.** Every result returned by `retrievalService.search` has a
similarity score at least the threshold (`0.7` when the options give none):
candidates whose similarity is below the threshold are excluded by the
`results.filter((r) => r.similarity >= threshold)` step. -/
theorem search_excludes_below_threshold
    (dist : List ℚ → List ℚ → ℚ) (embedOf : String → List ℚ)
    (db : List DocumentChunkRow) (query : String) (options : RetrievalOptions) :
    ∀ r ∈ search dist embedOf db query options,
      options.threshold.getD (7/10) ≤ r.score := by
  intro r hr
  simp only [search, List.mem_map, List.mem_filter, ge_iff_le, decide_eq_true_eq] at hr
  obtain ⟨a, ⟨-, ha⟩, rfl⟩ := hr
  exact ha

/-- Concrete distance function for witnesses: everything is at distance 0. -/
def cDist : List ℚ → List ℚ → ℚ := fun _ _ => 0

/-- Concrete embedding function for witnesses. -/
def cEmbed : String → List ℚ := fun _ => [1]

/-- Concrete single-row chunk table for witnesses. -/
def cDb : List DocumentChunkRow :=
  [{ id := "c1", content := "hello", documentId := "d1",
     metadata := none, embedding := some [1] }]

/-- Concrete retrieval options for witnesses. -/
def cOpts : RetrievalOptions :=
  { topK := none, threshold := none, documentIds := some ["d1"] }

/-- The result `search` returns on the concrete witness inputs. -/
def cResult : SearchResult :=
  { id := "c1", content := "hello", score := 1, documentId := "d1", metadata := none }

/-- Evaluating `search` on the concrete witness inputs. -/
theorem cSearch_eq : search cDist cEmbed cDb "q" cOpts = [cResult] := by
  norm_num [search, vectorQuery, rowDistance, cDb, cOpts, cDist, cEmbed, cResult,
    List.insertionSort, List.orderedInsert, List.filter, Option.getD]

/-- Witness for C1: on a concrete store, the returned result scores above
the default threshold. -/
theorem search_excludes_below_threshold_witness :
    cOpts.threshold.getD (7/10) ≤ cResult.score :=
  search_excludes_below_threshold cDist cEmbed cDb "q" cOpts cResult
    (by rw [cSearch_eq]; exact List.mem_singleton.mpr rfl)

/-- **C2.** `retrievalService.search` returns at most `topK` results
(`5` when the options give none), ordered from most similar to least
similar (the SQL orders by ascending cosine distance, i.e. descending
similarity), and when `documentIds` is a non-empty list every returned
result's `documentId` is in that list. -/
theorem search_topK_order_docFilter
    (dist : List ℚ → List ℚ → ℚ) (embedOf : String → List ℚ)
    (db : List DocumentChunkRow) (query : String) (options : RetrievalOptions) :
    (search dist embedOf db query options).length ≤ options.topK.getD 5
    ∧ (search dist embedOf db query options).Pairwise (fun a b => b.score ≤ a.score)
    ∧ (∀ ids, options.documentIds = some ids → ids ≠ [] →
        ∀ r ∈ search dist embedOf db query options, r.documentId ∈ ids) := by
  refine ⟨?_, ?_, ?_⟩
  · simp only [search, vectorQuery]
    rw [List.length_map]
    refine le_trans (List.length_filter_le _ _) ?_
    simp only [List.length_map, List.length_take]
    exact min_le_left _ _
  · simp only [search, vectorQuery]
    rw [List.pairwise_map]
    refine List.Pairwise.filter _ ?_
    rw [List.pairwise_map]
    exact (List.Pairwise.sublist (List.take_sublist _ _)
        (pairwise_insertionSort_key (rowDistance dist (embedOf query)) _)).imp
      fun hab => by simpa using sub_le_sub_left hab 1
  · intro ids hids hne r hr
    have hpos : 0 < ids.length := List.length_pos.mpr hne
    simp only [search, vectorQuery, hids, gt_iff_lt, hpos, if_true,
      List.mem_map, List.mem_filter] at hr
    obtain ⟨a, ⟨⟨c, hc, rfl⟩, -⟩, rfl⟩ := hr
    have hc' := List.mem_of_mem_take hc
    rw [List.mem_insertionSort] at hc'
    have hkeep := (List.mem_filter.mp hc').2
    simp only [Bool.and_eq_true, decide_eq_true_eq] at hkeep
    exact hkeep.2

/-- Witness for C2: the conjuncts instantiated on the concrete store, with
the document-filter hypothesis discharged at `ids = ["d1"]`. -/
theorem search_topK_order_docFilter_witness :
    (search cDist cEmbed cDb "q" cOpts).length ≤ cOpts.topK.getD 5
    ∧ (search cDist cEmbed cDb "q" cOpts).Pairwise (fun a b => b.score ≤ a.score)
    ∧ cResult.documentId ∈ ["d1"] := by
  obtain ⟨h1, h2, h3⟩ := search_topK_order_docFilter cDist cEmbed cDb "q" cOpts
  exact ⟨h1, h2, h3 ["d1"] rfl (by simp) cResult
    (by rw [cSearch_eq]; exact List.mem_singleton.mpr rfl)⟩

/-! ## Document upload and chunking (`documents.routes.ts`)

Uploaded text is a `List Char`.  `String.prototype.trim` is modelled by
`jsTrim`, the regex split `text.split(/\n\n+/)` by `splitParas` (a
left-to-right scan that consumes maximal runs of two or more newlines), and
the paragraph-accumulation loop of `chunkText` by `chunkLoop`. -/

/-- The whitespace test of `String.prototype.trim`, restricted to the ASCII
whitespace characters. -/
def isWS (c : Char) : Bool := c = ' ' || c = '\t' || c = '\n' || c = '\r'

/-- `String.prototype.trim`: drop leading whitespace, then drop trailing
whitespace (implemented by reversing, dropping, and reversing back). -/
def jsTrim (s : List Char) : List Char :=
  ((s.dropWhile isWS).reverse.dropWhile isWS).reverse

/-- Dropping a run of newlines (the `+` part of the separator `/\n\n+/`). -/
def dropNl (l : List Char) : List Char := l.dropWhile (· = '\n')

theorem length_dropWhile_le {α : Type} (p : α → Bool) (l : List α) :
    (l.dropWhile p).length ≤ l.length := by
  induction l with
  | nil => simp
  | cons a l ih =>
    rw [List.dropWhile_cons]
    split
    · exact le_trans ih (Nat.le_succ _)
    · simp

/-- `text.split(/\n\n+/)`: scan left to right accumulating the current
part; on a maximal run of two or more newlines, emit the part and continue.
The regex engine finds leftmost matches of `\n\n+` greedily, which is
exactly this scan. -/
def splitParas (acc : List Char) : List Char → List (List Char)
  | '\n' :: '\n' :: rest => acc :: splitParas [] (dropNl rest)
  | c :: rest => splitParas (acc ++ [c]) rest
  | [] => [acc]
termination_by l => l.length
decreasing_by
  · have := length_dropWhile_le (fun c => c = '\n') rest
    simp only [List.length_cons, dropNl]
    omega
  · simp

/-- The paragraph loop of `chunkText` (lines 166-180 of
`documents.routes.ts`): skip empty-after-trim paragraphs, flush the current
chunk when adding the paragraph would exceed `maxChunkSize`, join paragraphs
inside a chunk with a blank line, and flush the final chunk when it trims to
something non-empty. -/
def chunkLoop (maxChunkSize : Nat) (chunks : List (List Char))
    (current : List Char) : List (List Char) → List (List Char)
  | [] => if jsTrim current ≠ [] then chunks ++ [jsTrim current] else chunks
  | para :: rest =>
    let trimmed := jsTrim para
    if trimmed = [] then chunkLoop maxChunkSize chunks current rest
    else if current.length + trimmed.length > maxChunkSize ∧ current ≠ [] then
      chunkLoop maxChunkSize (chunks ++ [jsTrim current]) trimmed rest
    else
      chunkLoop maxChunkSize chunks
        (current ++ if current ≠ [] then '\n' :: '\n' :: trimmed else trimmed) rest

/-- `chunkText` (lines 161-183 of `documents.routes.ts`): split into
paragraphs, run the accumulation loop, and fall back to the single chunk
`[text.trim()]` when the loop produced no chunks. -/
def chunkText (text : List Char) (maxChunkSize : Nat := 1000) : List (List Char) :=
  let chunks := chunkLoop maxChunkSize [] [] (splitParas [] text)
  if chunks.length > 0 then chunks else [jsTrim text]

/-- `estimateTokens` (lines 188-190): `Math.ceil(text.length / 4)`. -/
def estimateTokens (text : List Char) : Nat := (text.length + 3) / 4

/-- The first character surviving `dropWhile p` fails `p`. -/
theorem head?_dropWhile_false {α : Type} (p : α → Bool) (l : List α) :
    ∀ c, (l.dropWhile p).head? = some c → p c = false := by
  intro c hc
  have h := List.head?_dropWhile_not p l
  rw [hc] at h
  exact h

/-- A trimmed string has no leading whitespace. -/
theorem jsTrim_head (s : List Char) :
    ∀ c, (jsTrim s).head? = some c → isWS c = false := by
  intro c hc
  rw [jsTrim, List.head?_reverse] at hc
  have hne : (s.dropWhile isWS).reverse.dropWhile isWS ≠ [] := by
    intro h; rw [h] at hc; simp at hc
  obtain ⟨t, ht⟩ := List.dropWhile_suffix (l := (s.dropWhile isWS).reverse) isWS
  have : (s.dropWhile isWS).reverse.getLast? = some c := by
    rw [← ht, List.getLast?_append]
    rw [hc]
    rfl
  rw [List.getLast?_reverse] at this
  exact head?_dropWhile_false isWS s c this

/-- A trimmed string has no trailing whitespace. -/
theorem jsTrim_getLast (s : List Char) :
    ∀ c, (jsTrim s).getLast? = some c → isWS c = false := by
  intro c hc
  rw [jsTrim, List.getLast?_reverse] at hc
  exact head?_dropWhile_false isWS _ c hc

/-- Every chunk emitted by `chunkLoop` is the `jsTrim` of some string,
provided the chunks accumulated so far are. -/
theorem chunkLoop_mem_trim (m : Nat) (paras : List (List Char)) :
    ∀ chunks current, (∀ c ∈ chunks, ∃ s, c = jsTrim s) →
      ∀ c ∈ chunkLoop m chunks current paras, ∃ s, c = jsTrim s := by
  induction paras with
  | nil =>
    intro chunks current hinv c hc
    rw [chunkLoop] at hc
    split at hc
    · rcases List.mem_append.mp hc with h | h
      · exact hinv c h
      · exact ⟨current, by simpa using h⟩
    · exact hinv c hc
  | cons para rest ih =>
    intro chunks current hinv c hc
    rw [chunkLoop] at hc
    split at hc
    · exact ih chunks current hinv c hc
    · split at hc
      · refine ih _ _ ?_ c hc
        intro d hd
        rcases List.mem_append.mp hd with h | h
        · exact hinv d h
        · exact ⟨current, by simpa using h⟩
      · exact ih _ _ hinv c hc

/-- **C10.** `chunkText` is total and always returns at least one chunk;
when the paragraph loop yields no chunks it falls back to the single chunk
`[text.trim()]`; and every returned chunk has no leading or trailing
whitespace (every chunk is the `trim` of some string). -/
theorem chunkText_total_nonempty_trimmed (t : List Char) (m : Nat) :
    chunkText t m ≠ []
    ∧ (∀ c ∈ chunkText t m, (∀ x, c.head? = some x → isWS x = false) ∧
        (∀ x, c.getLast? = some x → isWS x = false))
    ∧ (chunkLoop m [] [] (splitParas [] t) = [] → chunkText t m = [jsTrim t]) := by
  refine ⟨?_, ?_, ?_⟩
  · rw [chunkText]
    split
    · intro h
      simp_all
    · simp
  · intro c hc
    have htr : ∃ s, c = jsTrim s := by
      rw [chunkText] at hc
      split at hc
      · exact chunkLoop_mem_trim m (splitParas [] t) [] [] (by simp) c hc
      · exact ⟨t, by simpa using hc⟩
    obtain ⟨s, rfl⟩ := htr
    exact ⟨jsTrim_head s, jsTrim_getLast s⟩
  · intro h
    rw [chunkText, h]
    simp

/-- Witness for C10 at the concrete input `"hi"`. -/
theorem chunkText_total_nonempty_trimmed_witness :
    chunkText ['h', 'i'] 1000 ≠ [] ∧ isWS 'h' = false ∧ isWS 'i' = false := by
  obtain ⟨h1, h2, -⟩ := chunkText_total_nonempty_trimmed ['h', 'i'] 1000
  have hm : ['h', 'i'] ∈ chunkText ['h', 'i'] 1000 := by
    simp [chunkText, chunkLoop, splitParas, jsTrim, List.dropWhile, isWS]
  obtain ⟨hh, hl⟩ := h2 ['h', 'i'] hm
  exact ⟨h1, hh 'h' rfl, hl 'i' rfl⟩

/-- A row of the `documents` table as created by
`documentsService.createDocument` (the `metadata.uploadedAt` timestamp is
kept as an opaque string parameter). -/
structure DbDocument where
  id : String
  title : List Char
  filename : List Char
  mimeType : String
  size : Nat
  content : List Char
  uploadedAt : String
  deriving Repr, DecidableEq

/-- A row of `document_chunks` as created by
`documentsService.createChunks`: content, optional token count and the
`metadata.chunkIndex` recorded by the upload route. -/
structure DbChunkRecord where
  documentId : String
  content : List Char
  tokenCount : Nat
  chunkIndex : Nat
  deriving Repr, DecidableEq

/-- The two tables the upload route writes. -/
structure DocsDb where
  documents : List DbDocument
  chunks : List DbChunkRecord
  deriving Repr, DecidableEq

/-- The uploaded file as multer presents it to the route handler. -/
structure UploadedFile where
  originalname : List Char
  mimetype : String
  size : Nat
  buffer : List Char
  deriving Repr, DecidableEq

/-- `file.originalname.replace(/\.[^/.]+$/, "")`: strip a final extension,
i.e. a dot followed by one or more characters none of which is a dot or a
slash, anchored at the end. -/
def stripExt (name : List Char) : List Char :=
  let rev := name.reverse
  let extRev := rev.takeWhile (fun c => c ≠ '.' && c ≠ '/')
  match rev.drop extRev.length with
  | '.' :: _ => if extRev.isEmpty then name else (rev.drop (extRev.length + 1)).reverse
  | _ => name

/-- The JSON body of the 201 response of `POST /api/documents/upload`: the
created document spread together with `chunkCount` and `status`
(`{...document, chunkCount, status}` is modelled as a nested record). -/
structure UploadResponse where
  document : DbDocument
  chunkCount : Nat
  status : String
  deriving Repr, DecidableEq

/-- The `POST /api/documents/upload` handler (lines 88-138 of
`documents.routes.ts`): create one document row (title defaulting to the
filename without extension when `req.body.title` is absent or empty), chunk
the content with `chunkText`, create one chunk record per chunk carrying
its `chunkIndex` and `estimateTokens` count, and respond 201 with the
document and `chunkCount = chunks.length`.  The generated row id and the
upload timestamp are parameters; the background embedding job only mutates
the `embedding` column later and is not part of the response. -/
def uploadHandler (db : DocsDb) (newId : String) (uploadedAt : String)
    (bodyTitle : Option (List Char)) (file : UploadedFile) :
    DocsDb × UploadResponse :=
  let content := file.buffer
  let title :=
    match bodyTitle with
    | some t => if t = [] then stripExt file.originalname else t
    | none => stripExt file.originalname
  let doc : DbDocument :=
    { id := newId, title := title, filename := file.originalname,
      mimeType := file.mimetype, size := file.size, content := content,
      uploadedAt := uploadedAt }
  let chunks := chunkText content 1000
  let records := chunks.mapIdx (fun i text =>
    { documentId := newId, content := text,
      tokenCount := estimateTokens text, chunkIndex := i : DbChunkRecord })
  ({ documents := db.documents ++ [doc], chunks := db.chunks ++ records },
   { document := doc, chunkCount := chunks.length, status := "processing" })

/-- **C5.** The upload endpoint creates one document, creates exactly
`chunkText(content).length` chunk records for it — each carrying its index
and an estimated token count of `ceil(length / 4)` — and responds with a
`chunkCount` field equal to that same number of generated chunks. -/
theorem upload_creates_doc_chunks_counts
    (db : DocsDb) (newId uploadedAt : String) (bodyTitle : Option (List Char))
    (file : UploadedFile) :
    ∃ doc records,
      (uploadHandler db newId uploadedAt bodyTitle file).1.documents
          = db.documents ++ [doc]
      ∧ (uploadHandler db newId uploadedAt bodyTitle file).1.chunks
          = db.chunks ++ records
      ∧ records.length = (chunkText file.buffer 1000).length
      ∧ (uploadHandler db newId uploadedAt bodyTitle file).2.chunkCount
          = (chunkText file.buffer 1000).length
      ∧ ∀ i (h : i < records.length),
          (records.get ⟨i, h⟩).documentId = newId
          ∧ (records.get ⟨i, h⟩).chunkIndex = i
          ∧ (records.get ⟨i, h⟩).tokenCount
              = ((records.get ⟨i, h⟩).content.length + 3) / 4 := by
  refine ⟨_, _, rfl, rfl, ?_, rfl, ?_⟩
  · simp [List.length_mapIdx]
  · intro i h
    have hlen : i < (chunkText file.buffer 1000).length := by
      simpa [List.length_mapIdx] using h
    rw [List.get_mapIdx _ _ i hlen]
    exact ⟨rfl, rfl, rfl⟩

/-- Concrete uploaded file for the C5 witness. -/
def cFile : UploadedFile :=
  { originalname := ['a', '.', 't', 'x', 't'], mimetype := "text/plain",
    size := 2, buffer := ['h', 'i'] }

/-- Witness for C5: on an empty store and the file `"hi"`, the handler
reports `chunkCount` equal to the number of generated chunks, and the single
created record carries index 0 and token count `ceil(2/4) = 1`. -/
theorem upload_creates_doc_chunks_counts_witness :
    (uploadHandler ⟨[], []⟩ "doc1" "now" none cFile).2.chunkCount
        = (chunkText cFile.buffer 1000).length
    ∧ ∃ records : List DbChunkRecord, ∃ h : 0 < records.length,
        (uploadHandler ⟨[], []⟩ "doc1" "now" none cFile).1.chunks = records
        ∧ (records.get ⟨0, h⟩).chunkIndex = 0
        ∧ (records.get ⟨0, h⟩).tokenCount
            = ((records.get ⟨0, h⟩).content.length + 3) / 4 := by
  obtain ⟨doc, records, h1, h2, h3, h4, h5⟩ :=
    upload_creates_doc_chunks_counts ⟨[], []⟩ "doc1" "now" none cFile
  have hlen : 0 < records.length := by
    rw [h3]
    simp [chunkText, chunkLoop, splitParas, cFile, jsTrim, List.dropWhile, isWS]
  obtain ⟨-, hidx, htok⟩ := h5 0 hlen
  exact ⟨h4, records, hlen, by simpa using h2, hidx, htok⟩

/-! ## Central error middleware (`error.middleware.ts`) -/

/-- An error reaching the central handler: either a Zod validation error
(carrying its issue messages, joined by the handler) or a plain `AppError`
with a `message` and optional `statusCode` / `code` fields. -/
inductive HandledError
  | zod (errMessages : List String)
  | plain (message : String) (statusCode : Option Nat) (code : Option String)
  deriving Repr, DecidableEq

/-- The response `sendError` writes: HTTP status, error message, error
code. -/
structure ErrResponse where
  status : Nat
  message : String
  code : Option String
  deriving Repr, DecidableEq

/-- JS truthiness of the optional numeric field `err.statusCode` in
`if (err.statusCode)`: `undefined` and `0` are falsy. -/
def truthyStatus : Option Nat → Bool
  | none => false
  | some n => n != 0

/-- `errorHandler` (lines 16-54 of `error.middleware.ts`): Zod errors
become 400 `VALIDATION_ERROR` with the joined issue messages; errors whose
`statusCode` is truthy keep their status and code; everything else becomes
500 `INTERNAL_ERROR`, with the real message replaced by a generic one when
`NODE_ENV === "production"`. -/
def errorHandler (err : HandledError) (isProduction : Bool) : ErrResponse :=
  match err with
  | .zod msgs =>
      { status := 400
        message := "Validation error: " ++ String.intercalate ", " msgs
        code := some "VALIDATION_ERROR" }
  | .plain message statusCode code =>
      if truthyStatus statusCode then
        { status := statusCode.getD 0, message := message, code := code }
      else
        { status := 500
          message := if isProduction then "Internal server error" else message
          code := some "INTERNAL_ERROR" }

/-- **C6, counterexample.** The claim says an error carrying a `statusCode`
yields exactly that status and its code, but `if (err.statusCode)` treats
the number `0` as falsy: an `AppError` with `statusCode = 0` falls through
to the 500 branch, so neither its status nor its code is preserved. -/
theorem errorHandler_statusCode_zero_cex :
    (errorHandler (.plain "boom" (some 0) (some "APP_ERR")) false).status = 500
    ∧ (errorHandler (.plain "boom" (some 0) (some "APP_ERR")) false).status ≠ 0
    ∧ (errorHandler (.plain "boom" (some 0) (some "APP_ERR")) false).code
        ≠ some "APP_ERR" := by
  decide

/-- **C6, amended.** A schema validation error yields HTTP 400 with code
`VALIDATION_ERROR`; an error carrying a *non-zero* `statusCode` yields
exactly that status and its code; any other error (no `statusCode`, or a
falsy `statusCode` of `0`) yields HTTP 500, with the generic message
`'Internal server error'` when `NODE_ENV` is production and the error's
own message otherwise. -/
theorem errorHandler_spec (isProd : Bool) :
    (∀ msgs, errorHandler (.zod msgs) isProd
        = { status := 400
            message := "Validation error: " ++ String.intercalate ", " msgs
            code := some "VALIDATION_ERROR" })
    ∧ (∀ m sc c, sc ≠ 0 → errorHandler (.plain m (some sc) c) isProd
        = { status := sc, message := m, code := c })
    ∧ (∀ m c, errorHandler (.plain m none c) isProd
        = { status := 500
            message := if isProd then "Internal server error" else m
            code := some "INTERNAL_ERROR" })
    ∧ (∀ m c, errorHandler (.plain m (some 0) c) isProd
        = { status := 500
            message := if isProd then "Internal server error" else m
            code := some "INTERNAL_ERROR" }) := by
  refine ⟨fun msgs => rfl, fun m sc c hsc => ?_, fun m c => rfl, fun m c => rfl⟩
  simp [errorHandler, truthyStatus, hsc]

/-- Witness for the amended C6, at concrete errors of each kind. -/
theorem errorHandler_spec_witness :
    errorHandler (.zod ["bad"]) false
        = { status := 400, message := "Validation error: bad"
            code := some "VALIDATION_ERROR" }
    ∧ errorHandler (.plain "nope" (some 404) (some "NOT_FOUND")) false
        = { status := 404, message := "nope", code := some "NOT_FOUND" }
    ∧ errorHandler (.plain "boom" none none) true
        = { status := 500, message := "Internal server error"
            code := some "INTERNAL_ERROR" } := by
  refine ⟨?_, ?_, ?_⟩
  · have h := (errorHandler_spec false).1 ["bad"]
    rw [h]
    rfl
  · exact (errorHandler_spec false).2.1 "nope" 404 (some "NOT_FOUND") (by decide)
  · exact (errorHandler_spec true).2.2.1 "boom" none

/-! ## Chat service user scoping (`chat.service.ts`)

The `conversations` table is a list of rows; Prisma's `findFirst`,
`updateMany` and `deleteMany` with `where: { id, userId }` are modelled by
`find?`, a conditional `map` (also returning the matched-row count) and a
`filter` (also returning the deleted-row count). -/

/-- `ConversationSettings` from `chat.types.ts`. -/
structure ConversationSettings where
  topK : Nat
  threshold : ℚ
  documentIds : Option (List String) := none
  deriving Repr, DecidableEq

/-- A row of the `conversations` table (its messages live in a separate
table and are not needed for the scoping claim). -/
structure ConversationRow where
  id : String
  userId : String
  title : String
  settings : Option ConversationSettings
  updatedAt : Nat
  deriving Repr, DecidableEq

/-- `chatService.getConversation` (lines 50-62): `findFirst` with
`where: { id: conversationId, userId }`. -/
def getConversation (store : List ConversationRow)
    (conversationId userId : String) : Option ConversationRow :=
  store.find? (fun c => c.id = conversationId && c.userId = userId)

/-- `chatService.updateConversationSettings` (lines 67-82): `updateMany`
with `where: { id: conversationId, userId }`, writing `settings` and a new
`updatedAt`; Prisma returns the count of matched rows. -/
def updateConversationSettings (store : List ConversationRow)
    (conversationId userId : String) (settings : ConversationSettings)
    (now : Nat) : List ConversationRow × Nat :=
  (store.map (fun c =>
      if c.id = conversationId && c.userId = userId then
        { c with settings := some settings, updatedAt := now }
      else c),
   (store.filter (fun c => c.id = conversationId && c.userId = userId)).length)

/-- `chatService.deleteConversation` (lines 109-116): `deleteMany` with
`where: { id: conversationId, userId }`; Prisma returns the count of
deleted rows. -/
def deleteConversation (store : List ConversationRow)
    (conversationId userId : String) : List ConversationRow × Nat :=
  (store.filter (fun c => !(c.id = conversationId && c.userId = userId)),
   (store.filter (fun c => c.id = conversationId && c.userId = userId)).length)

/-- **C8.** Conversation operations are scoped to the requesting user: when
every conversation with the requested id belongs to a different user,
`getConversation` returns null, and `deleteConversation` and
`updateConversationSettings` match zero rows and leave the store
unchanged. -/
theorem conversation_ops_user_scoped (store : List ConversationRow)
    (conversationId userId : String) (settings : ConversationSettings)
    (now : Nat)
    (hOther : ∀ c ∈ store, c.id = conversationId → c.userId ≠ userId) :
    getConversation store conversationId userId = none
    ∧ deleteConversation store conversationId userId = (store, 0)
    ∧ updateConversationSettings store conversationId userId settings now
        = (store, 0) := by
  have hmatch : ∀ c ∈ store,
      (c.id = conversationId && c.userId = userId : Bool) = false := by
    intro c hc
    by_cases hid : c.id = conversationId
    · simp [hid, hOther c hc hid]
    · simp [hid]
  have hfilter :
      store.filter (fun c => c.id = conversationId && c.userId = userId) = [] := by
    rw [List.filter_eq_nil_iff]
    intro c hc
    simp [hmatch c hc]
  refine ⟨?_, ?_, ?_⟩
  · rw [getConversation, List.find?_eq_none]
    intro c hc
    simp [hmatch c hc]
  · rw [deleteConversation, hfilter]
    refine Prod.ext ?_ rfl
    simp only []
    rw [List.filter_eq_self]
    intro c hc
    simp [hmatch c hc]
  · rw [updateConversationSettings, hfilter]
    refine Prod.ext ?_ rfl
    simp only []
    rw [List.map_congr_left (g := id), List.map_id]
    intro c hc
    simp [hmatch c hc]

/-- Concrete store for the C8 witness: one conversation owned by `alice`. -/
def cStore : List ConversationRow :=
  [{ id := "conv1", userId := "alice", title := "New Chat",
     settings := none, updatedAt := 0 }]

/-- Witness for C8: `bob` can neither read, delete, nor update `alice`'s
conversation. -/
theorem conversation_ops_user_scoped_witness :
    getConversation cStore "conv1" "bob" = none
    ∧ deleteConversation cStore "conv1" "bob" = (cStore, 0)
    ∧ updateConversationSettings cStore "conv1" "bob"
        { topK := 5, threshold := 1, documentIds := none } 7 = (cStore, 0) :=
  conversation_ops_user_scoped cStore "conv1" "bob"
    { topK := 5, threshold := 1, documentIds := none } 7
    (by intro c hc hid; simp [cStore] at hc; simp [hc])

/-! ## Client chat store (`chat-store.ts`) -/

/-- A source citation attached to a stored message. -/
structure StoreSource where
  id : String
  content : String
  score : ℚ
  documentId : String
  deriving Repr, DecidableEq

/-- A message in the client chat store (`Message` in `chat-store.ts`). -/
structure StoreMessage where
  id : String
  role : String
  content : List Char
  sources : Option (List StoreSource)
  createdAt : Nat
  isStreaming : Option Bool
  deriving Repr, DecidableEq

/-- A conversation in the client chat store. -/
structure StoreConversation where
  id : String
  title : Option String
  createdAt : Nat
  updatedAt : Nat
  messages : List StoreMessage
  deriving Repr, DecidableEq

/-- The Zustand chat store state (`ChatState` in `chat-store.ts`); the
computed `activeConversation` getter is derived state and not stored. -/
structure ChatState where
  conversations : List StoreConversation
  activeConversationId : Option String
  isLoading : Bool
  isStreaming : Bool
  error : Option String
  deriving Repr, DecidableEq

/-- `appendToMessage` (lines 120-132 of `chat-store.ts`): map over the
conversations; in the conversation with the given id, map over its
messages; the message with the given id gets `content + chunk`; every
other object is spread through unchanged. -/
def appendToMessage (st : ChatState) (conversationId messageId : String)
    (chunk : List Char) : ChatState :=
  { st with conversations := st.conversations.map (fun c =>
      if c.id = conversationId then
        { c with messages := c.messages.map (fun m =>
            if m.id = messageId then { m with content := m.content ++ chunk }
            else m) }
      else c) }

/-- **C9.** `appendToMessage` replaces the content of the message with the
given id in the given conversation by its old content concatenated with the
chunk, leaves every other field of that message, every other message, every
other conversation and all other store state unchanged; and appending two
chunks one by one equals appending their concatenation. -/
theorem appendToMessage_single_update
    (st : ChatState) (cid mid : String) (chunk chunk₂ : List Char) :
    (appendToMessage st cid mid chunk).activeConversationId
        = st.activeConversationId
    ∧ (appendToMessage st cid mid chunk).isLoading = st.isLoading
    ∧ (appendToMessage st cid mid chunk).isStreaming = st.isStreaming
    ∧ (appendToMessage st cid mid chunk).error = st.error
    ∧ (appendToMessage st cid mid chunk).conversations.length
        = st.conversations.length
    ∧ (∀ (i : Nat) (c c' : StoreConversation), st.conversations[i]? = some c →
        (appendToMessage st cid mid chunk).conversations[i]? = some c' →
        (c.id ≠ cid → c' = c)
        ∧ (c.id = cid →
            c'.id = c.id ∧ c'.title = c.title ∧ c'.createdAt = c.createdAt
            ∧ c'.updatedAt = c.updatedAt
            ∧ c'.messages.length = c.messages.length
            ∧ ∀ (j : Nat) (m m' : StoreMessage), c.messages[j]? = some m → c'.messages[j]? = some m' →
                (m.id ≠ mid → m' = m)
                ∧ (m.id = mid →
                    m'.content = m.content ++ chunk
                    ∧ m'.id = m.id ∧ m'.role = m.role ∧ m'.sources = m.sources
                    ∧ m'.createdAt = m.createdAt
                    ∧ m'.isStreaming = m.isStreaming)))
    ∧ appendToMessage (appendToMessage st cid mid chunk) cid mid chunk₂
        = appendToMessage st cid mid (chunk ++ chunk₂) := by
  refine ⟨rfl, rfl, rfl, rfl, by simp [appendToMessage], ?_, ?_⟩
  · intro i c c' hc hc'
    rw [appendToMessage] at hc'
    simp only [List.getElem?_map, hc, Option.map_some'] at hc'
    have hc' := (Option.some.injEq _ _).mp hc'
    subst hc'
    constructor
    · intro hne
      rw [if_neg hne]
    · intro heq
      rw [if_pos heq]
      refine ⟨rfl, rfl, rfl, rfl, by simp, ?_⟩
      intro j m m' hm hm'
      simp only [List.getElem?_map, hm, Option.map_some'] at hm'
      have hm' := (Option.some.injEq _ _).mp hm'
      subst hm'
      constructor
      · intro hne
        rw [if_neg hne]
      · intro heq
        rw [if_pos heq]
        exact ⟨rfl, rfl, rfl, rfl, rfl, rfl⟩
  · rw [appendToMessage, appendToMessage, appendToMessage]
    simp only [List.map_map]
    refine congrArg (fun l => { st with conversations := l }) ?_
    refine List.map_congr_left ?_
    intro c _
    simp only [Function.comp_apply]
    by_cases hcid : c.id = cid
    · rw [if_pos hcid]
      rw [if_pos hcid, if_pos hcid]
      simp only [List.map_map]
      refine congrArg (fun l => { c with messages := l }) ?_
      refine List.map_congr_left ?_
      intro m _
      simp only [Function.comp_apply]
      by_cases hmid : m.id = mid
      · rw [if_pos hmid, if_pos hmid, if_pos hmid]
        simp [List.append_assoc]
      · rw [if_neg hmid, if_neg hmid, if_neg hmid]
    · rw [if_neg hcid, if_neg hcid, if_neg hcid]

/-- Concrete store state for the C9 witness: one conversation `cv` holding
messages `m1` (content `"h"`) and `m2`. -/
def cChat : ChatState :=
  { conversations :=
      [{ id := "cv", title := none, createdAt := 0, updatedAt := 0,
         messages :=
           [{ id := "m1", role := "assistant", content := ['h'],
              sources := none, createdAt := 0, isStreaming := some true },
            { id := "m2", role := "user", content := ['x'],
              sources := none, createdAt := 0, isStreaming := none }] }]
    activeConversationId := some "cv"
    isLoading := false
    isStreaming := true
    error := none }

/-- Witness for C9 on the concrete store: the targeted message's content is
appended, the sibling message is untouched, the store frame is preserved,
and appending `"!"` then `"?"` equals appending `"!?"`. -/
theorem appendToMessage_single_update_witness :
    (appendToMessage cChat "cv" "m1" ['!']).error = cChat.error
    ∧ (appendToMessage cChat "cv" "m1" ['!']).conversations.length
        = cChat.conversations.length
    ∧ (∃ c' : StoreConversation,
        (appendToMessage cChat "cv" "m1" ['!']).conversations[0]? = some c'
        ∧ (∃ m' : StoreMessage, c'.messages[0]? = some m'
            ∧ m'.content = ['h'] ++ ['!'])
        ∧ (∃ m₂ : StoreMessage, c'.messages[1]? = some m₂
            ∧ m₂.content = ['x']))
    ∧ appendToMessage (appendToMessage cChat "cv" "m1" ['!']) "cv" "m1" ['?']
        = appendToMessage cChat "cv" "m1" (['!'] ++ ['?']) := by
  obtain ⟨-, -, -, h4, h5, h6, h7⟩ :=
    appendToMessage_single_update cChat "cv" "m1" ['!'] ['?']
  have hconv := h6 0 _ _ rfl rfl
  have hcid := hconv.2 rfl
  obtain ⟨-, -, -, -, -, hmsg⟩ := hcid
  have hm1 := (hmsg 0 _ _ rfl rfl).2 rfl
  have hm2 := (hmsg 1 _ _ rfl rfl).1 (by simp [cChat])
  exact ⟨h4, h5,
    ⟨_, rfl, ⟨_, rfl, hm1.1⟩, ⟨_, rfl, by rw [hm2]; rfl⟩⟩, h7⟩

/-! ## Completion service prompt assembly (`completion.service.ts`)

`completionService.complete` (lines 96-113) and `completionService.stream`
(lines 196-214) build their `messages` array with textually identical code;
`completionMessages` models both.  The retrieval outcome is the `sources`
parameter. -/

/-- The role of a chat-completion message. -/
inductive ChatRole
  | system
  | user
  | assistant
  deriving Repr, DecidableEq

/-- A message sent to the hosted chat-completion API. -/
structure ChatCompletionMessage where
  role : ChatRole
  content : String
  deriving Repr, DecidableEq

/-- The `SYSTEM_PROMPT` constant (lines 18-27 of `completion.service.ts`). -/
def SYSTEM_PROMPT : String :=
  "You are a helpful knowledge assistant. Your role is to answer questions based on the documents and content provided to you.\n\nWhen answering questions:\n1. Base your answers on the provided context from the documents\n2. If the context doesn\x27t contain relevant information, acknowledge that and offer what you can help with\n3. Be concise but thorough\n4. Reference specific sources when helpful\n5. Feel free to expand on topics using your general knowledge when the documents provide a foundation\n\nBe helpful, accurate, and conversational."

/-- The numbered context lines built by
`sources.map((s, i) => "[" + (i+1) + "] " + s.content)`. -/
def contextLines (sources : List SearchResult) : List String :=
  sources.mapIdx (fun i s => "[" ++ toString (i + 1) ++ "] " ++ s.content)

/-- The `contextPrompt` (lines 96-102 / 196-200): the header and the
blank-line-joined numbered chunks when at least one chunk was retrieved,
and the empty string otherwise. -/
def contextPrompt (sources : List SearchResult) : String :=
  if sources.length > 0 then
    "\n\nRelevant context from company documents:\n"
      ++ String.intercalate "\n\n" (contextLines sources)
  else ""

/-- The `messages` array (lines 106-113 / 207-214): the system prompt with
the retrieved context appended, then the conversation history with roles
and contents copied over, then the user message. -/
def completionMessages (sources : List SearchResult)
    (history : List ChatCompletionMessage) (userMessage : String) :
    List ChatCompletionMessage :=
  { role := ChatRole.system, content := SYSTEM_PROMPT ++ contextPrompt sources }
    :: (history.map (fun m => { role := m.role, content := m.content })
        ++ [{ role := ChatRole.user, content := userMessage }])

/-- **C4.** The messages array sent to the hosted completion API starts
with the system prompt with the retrieved context appended, is followed by
the conversation history in order, and ends with the user message; the
context lists the retrieved chunks numbered `[1] ...` to `[n] ...` in
retrieval order and is empty when no chunks were retrieved. -/
theorem completionMessages_structure (sources : List SearchResult)
    (history : List ChatCompletionMessage) (userMessage : String) :
    completionMessages sources history userMessage
        = { role := ChatRole.system
            content := SYSTEM_PROMPT ++ contextPrompt sources }
          :: history ++ [{ role := ChatRole.user, content := userMessage }]
    ∧ (completionMessages sources history userMessage).getLast?
        = some { role := ChatRole.user, content := userMessage }
    ∧ contextPrompt [] = ""
    ∧ (sources ≠ [] → contextPrompt sources
        = "\n\nRelevant context from company documents:\n"
          ++ String.intercalate "\n\n" (contextLines sources))
    ∧ (contextLines sources).length = sources.length
    ∧ (∀ (i : Nat) (s : SearchResult), sources[i]? = some s →
        (contextLines sources)[i]?
          = some ("[" ++ toString (i + 1) ++ "] " ++ s.content)) := by
  have hmap : history.map
      (fun m => ({ role := m.role, content := m.content } : ChatCompletionMessage))
      = history := by
    have hfun : (fun m : ChatCompletionMessage =>
        ({ role := m.role, content := m.content } : ChatCompletionMessage)) = id := by
      funext m
      rfl
    rw [hfun, List.map_id]
  have hstruct : completionMessages sources history userMessage
      = { role := ChatRole.system
          content := SYSTEM_PROMPT ++ contextPrompt sources }
        :: (history ++ [{ role := ChatRole.user, content := userMessage }]) := by
    rw [completionMessages, hmap]
  refine ⟨by rw [hstruct, List.cons_append], ?_, rfl, ?_, ?_, ?_⟩
  · rw [hstruct, ← List.cons_append]
    exact List.getLast?_concat _
  · intro hne
    rw [contextPrompt, if_pos (List.length_pos.mpr hne)]
  · simp [contextLines, List.length_mapIdx]
  · intro i s hs
    have hi : i < sources.length := by
      by_contra hge
      rw [List.getElem?_eq_none (Nat.le_of_not_lt hge)] at hs
      exact Option.noConfusion hs
    have hs' : sources[i] = s := by
      have := List.getElem?_eq_getElem hi
      rw [this] at hs
      exact (Option.some.injEq _ _).mp hs
    have hil : i < (contextLines sources).length := by
      simpa [contextLines, List.length_mapIdx] using hi
    rw [List.getElem?_eq_getElem hil]
    have hmi := List.get_mapIdx sources
      (fun i s => "[" ++ toString (i + 1) ++ "] " ++ s.content) i hi
    simp only [List.get_eq_getElem] at hmi
    simp only [contextLines]
    rw [hmi, hs']

/-- Concrete retrieved source for the C4 witness. -/
def cSource : SearchResult :=
  { id := "c1", content := "alpha", score := 1, documentId := "d1",
    metadata := none }

/-- Witness for C4 on one retrieved chunk and a one-message history. -/
theorem completionMessages_structure_witness :
    completionMessages [cSource] [{ role := ChatRole.user, content := "hi" }] "go"
        = { role := ChatRole.system
            content := SYSTEM_PROMPT ++ contextPrompt [cSource] }
          :: [{ role := ChatRole.user, content := "hi" }]
          ++ [{ role := ChatRole.user, content := "go" }]
    ∧ contextPrompt [] = ""
    ∧ contextPrompt [cSource]
        = "\n\nRelevant context from company documents:\n"
          ++ String.intercalate "\n\n" (contextLines [cSource])
    ∧ (contextLines [cSource])[0]? = some ("[" ++ toString 1 ++ "] " ++ "alpha") := by
  obtain ⟨h1, -, h3, h4, -, h6⟩ := completionMessages_structure [cSource]
    [{ role := ChatRole.user, content := "hi" }] "go"
  exact ⟨h1, h3, h4 (by simp), h6 0 cSource rfl⟩

/-! ## SSE framing and client stream reassembly

The server (`chatController.sendMessageStream`, lines 256-284) writes one
frame `"data: " + JSON.stringify(chunk) + "\n\n"` per relayed chunk.  The
client (`useChatStreaming.sendMessage`, lines 75-104) accumulates reads in
a buffer, splits the buffer on `"\n\n"`, keeps the final piece as the new
buffer and handles each complete part.  `scanNN` models
`buffer.split("\n\n")` together with `buffer = lines.pop()`: it returns the
complete parts and the trailing remainder. -/

/-- The double-newline frame terminator. -/
def nn : List Char := ['\n', '\n']

/-- `s.split("\n\n")` with the last piece split off:
scan left to right; each leftmost occurrence of a double newline ends the
accumulated part; the second component is the trailing remainder. -/
def scanNN (acc : List Char) : List Char → List (List Char) × List Char
  | [] => ([], acc)
  | c :: rest =>
    if c = '\n' ∧ rest.head? = some '\n' then
      let p := scanNN [] rest.tail
      (acc :: p.1, p.2)
    else
      scanNN (acc ++ [c]) rest
termination_by l => l.length
decreasing_by
  · simp only [List.length_tail, List.length_cons]
    omega
  · simp

/-- Helper for reasoning about `scanNN`: prepend `acc` to the first
component of a scan result (the scanner's branch decisions never depend on
the accumulator). -/
def consAcc (acc : List Char) :
    List (List Char) × List Char → List (List Char) × List Char
  | ([], r) => ([], acc ++ r)
  | (p :: ps, r) => ((acc ++ p) :: ps, r)

theorem scanNN_acc : ∀ (s acc : List Char),
    scanNN acc s = consAcc acc (scanNN [] s)
  | [], acc => by simp [scanNN, consAcc]
  | c :: rest, acc => by
    by_cases h : c = '\n' ∧ rest.head? = some '\n'
    · rw [scanNN, if_pos h, scanNN, if_pos h]
      simp [consAcc]
    · rw [scanNN, if_neg h, scanNN, if_neg h]
      rw [scanNN_acc rest (acc ++ [c]), scanNN_acc rest ([] ++ [c])]
      rcases hq : scanNN [] rest with ⟨ps, r⟩
      rcases ps with _ | ⟨p, ps⟩ <;> simp [consAcc]
termination_by s => s.length
decreasing_by
  · simp
  · simp

/-- A scan that found no separator accumulated the whole input. -/
theorem scanNN_fst_nil : ∀ (s acc : List Char),
    (scanNN acc s).1 = [] → (scanNN acc s).2 = acc ++ s
  | [], acc => by simp [scanNN]
  | c :: rest, acc => by
    by_cases h : c = '\n' ∧ rest.head? = some '\n'
    · rw [scanNN, if_pos h]
      intro hfst
      exact absurd hfst (by simp)
    · rw [scanNN, if_neg h]
      intro hfst
      rw [scanNN_fst_nil rest (acc ++ [c]) hfst]
      simp
termination_by s => s.length
decreasing_by
  · simp

/-- Unfolding a scan whose head does not start a separator. -/
theorem scanNN_cons_of_neg {c : Char} {rest : List Char}
    (h : ¬(c = '\n' ∧ rest.head? = some '\n')) :
    scanNN [] (c :: rest) = consAcc [c] (scanNN [] rest) := by
  rw [scanNN, if_neg h, scanNN_acc]
  simp

/-- Splitting a concatenation: the complete parts of `s` come first, and
the rest is a fresh scan of `s`\x27s remainder followed by `t` — exactly what
the client\x27s re-splitting of `buffer + chunk` computes. -/
theorem scanNN_append : ∀ (s t : List Char),
    scanNN [] (s ++ t)
      = ((scanNN [] s).1 ++ (scanNN [] ((scanNN [] s).2 ++ t)).1,
         (scanNN [] ((scanNN [] s).2 ++ t)).2)
  | [], t => by simp [scanNN]
  | c :: rest, t => by
    by_cases h : c = '\n' ∧ rest.head? = some '\n'
    · have hrest : rest ≠ [] := by
        intro hnil
        rw [hnil] at h
        exact Option.noConfusion h.2
      have hhead : (rest ++ t).head? = some '\n' := by
        rw [List.head?_append_of_ne_nil _ hrest]
        exact h.2
      have htail : (rest ++ t).tail = rest.tail ++ t :=
        List.tail_append_of_ne_nil hrest
      rw [List.cons_append, scanNN, if_pos ⟨h.1, hhead⟩, scanNN, if_pos h]
      rw [htail, scanNN_append rest.tail t]
      simp
    · rcases rest with _ | ⟨r₁, rest'⟩
      · have h1 : scanNN [] [c] = ([], [c]) := by
          rw [scanNN_cons_of_neg h, scanNN, consAcc]
          simp
        rw [h1]
        simp
      · have h' : ¬(c = '\n' ∧ ((r₁ :: rest') ++ t).head? = some '\n') := by
          simpa using h
        have hL : scanNN [] ((c :: r₁ :: rest') ++ t)
            = consAcc [c] (scanNN [] ((r₁ :: rest') ++ t)) := by
          rw [List.cons_append]
          exact scanNN_cons_of_neg h'
        rw [hL, scanNN_cons_of_neg h, scanNN_append (r₁ :: rest') t]
        rcases hq : scanNN [] (r₁ :: rest') with ⟨ps, r⟩
        rcases ps with _ | ⟨p, ps⟩
        · have hr : r = r₁ :: rest' := by
            have h2 := scanNN_fst_nil (r₁ :: rest') []
            rw [hq] at h2
            simpa using h2 rfl
          subst hr
          have hL' : scanNN [] (c :: r₁ :: (rest' ++ t))
              = consAcc [c] (scanNN [] (r₁ :: (rest' ++ t))) :=
            scanNN_cons_of_neg (by simpa using h)
          simp only [consAcc, List.nil_append, List.cons_append]
          rw [hL']
          rcases hx : scanNN [] (r₁ :: (rest' ++ t)) with ⟨qs, r2⟩
          rcases qs with _ | ⟨q, qs⟩ <;> simp [consAcc, hx]
        · simp [consAcc]
termination_by s => s.length
decreasing_by
  · simp only [List.length_tail, List.length_cons]
    omega
  · simp

/-- The remainder a scan leaves contains no separator: re-scanning it
yields no complete part. -/
theorem scanNN_snd_scan (s : List Char) :
    scanNN [] (scanNN [] s).2 = ([], (scanNN [] s).2) := by
  have h := scanNN_append s []
  rw [List.append_nil, List.append_nil] at h
  rcases hx : scanNN [] (scanNN [] s).2 with ⟨qs, r⟩
  rw [hx] at h
  have hlen := congrArg (fun p => p.1.length) h
  simp only [List.length_append] at hlen
  have hq : qs = [] := List.length_eq_zero.mp (by omega)
  subst hq
  have hr := congrArg Prod.snd h
  simp only at hr
  rw [← hr]

/-! ### JSON serialization of the streamed chunks

`JSON.stringify` escapes `"`, `\` and all control characters, so its
output never contains a raw newline; `jsonEscapeChar` is that escaping,
`parseJsonString` is `JSON.parse`\x27s reading of a string literal body. -/

/-- The hex digit characters `JSON.stringify` uses in `\u00XX` escapes. -/
def hexDigit (n : Nat) : Char :=
  if n < 10 then Char.ofNat (48 + n) else Char.ofNat (87 + n)

/-- `JSON.stringify`\x27s escaping of one character inside a string
literal. -/
def jsonEscapeChar (c : Char) : List Char :=
  if c = '"' then ['\\', '"']
  else if c = '\\' then ['\\', '\\']
  else if c = '\x08' then ['\\', 'b']
  else if c = '\t' then ['\\', 't']
  else if c = '\n' then ['\\', 'n']
  else if c = '\x0c' then ['\\', 'f']
  else if c = '\r' then ['\\', 'r']
  else if c.toNat < 32 then
    ['\\', 'u', '0', '0', hexDigit (c.toNat / 16), hexDigit (c.toNat % 16)]
  else [c]

/-- A serialized JSON string literal: quote, escaped body, quote. -/
def jsonString (s : List Char) : List Char :=
  '"' :: (s.map jsonEscapeChar).flatten ++ ['"']

/-- The numeric value of a hex digit (`JSON.parse`\x27s reading). -/
def hexVal (c : Char) : Option Nat :=
  if '0' ≤ c ∧ c ≤ '9' then some (c.toNat - 48)
  else if 'a' ≤ c ∧ c ≤ 'f' then some (c.toNat - 87)
  else if 'A' ≤ c ∧ c ≤ 'F' then some (c.toNat - 55)
  else none

/-- `JSON.parse`\x27s reading of a single-character escape. -/
def unescapeChar (e : Char) : Option Char :=
  if e = '"' then some '"'
  else if e = '\\' then some '\\'
  else if e = '/' then some '/'
  else if e = 'b' then some '\x08'
  else if e = 't' then some '\t'
  else if e = 'n' then some '\n'
  else if e = 'f' then some '\x0c'
  else if e = 'r' then some '\r'
  else none

/-- `JSON.parse`\x27s reading of a string literal body: consume characters
up to the closing quote, translating escapes; returns the decoded string
and the input following the closing quote. -/
def parseJsonString : List Char → Option (List Char × List Char)
  | [] => none
  | c :: rest =>
    if c = '"' then some ([], rest)
    else if c = '\\' then
      match rest with
      | [] => none
      | e :: rest' =>
        if e = 'u' then
          match rest' with
          | h1 :: h2 :: h3 :: h4 :: rest'' =>
            match hexVal h1, hexVal h2, hexVal h3, hexVal h4 with
            | some n1, some n2, some n3, some n4 =>
              match parseJsonString rest'' with
              | some (s, r) =>
                  some (Char.ofNat (((n1 * 16 + n2) * 16 + n3) * 16 + n4) :: s, r)
              | none => none
            | _, _, _, _ => none
          | _ => none
        else
          match unescapeChar e with
          | some d =>
            match parseJsonString rest' with
            | some (s, r) => some (d :: s, r)
            | none => none
          | none => none
    else
      match parseJsonString rest with
      | some (s, r) => some (c :: s, r)
      | none => none
termination_by l => l.length
decreasing_by
  · simp only [List.length_cons]
    omega
  · simp only [List.length_cons]
    omega
  · simp only [List.length_cons]
    omega

theorem hexVal_hexDigit : ∀ m, m < 16 → hexVal (hexDigit m) = some m := by
  decide

theorem hexDigit_ne_newline : ∀ m, m < 16 → hexDigit m ≠ '\n' := by
  decide

/-- JSON escaping never emits a raw newline. -/
theorem jsonEscapeChar_ne_newline (c : Char) :
    ∀ x ∈ jsonEscapeChar c, x ≠ '\n' := by
  intro x hx
  rw [jsonEscapeChar] at hx
  split_ifs at hx with h1 h2 h3 h4 h5 h6 h7 h8
  · rintro rfl
    simp at hx
  · rintro rfl
    simp at hx
  · rintro rfl
    simp at hx
  · rintro rfl
    simp at hx
  · rintro rfl
    simp at hx
  · rintro rfl
    simp at hx
  · rintro rfl
    simp at hx
  · rintro rfl
    simp at hx
    rcases hx with h | h
    · exact hexDigit_ne_newline (c.toNat / 16) (by omega) h.symm
    · exact hexDigit_ne_newline (c.toNat % 16) (Nat.mod_lt _ (by omega)) h.symm
  · simp at hx
    subst hx
    exact h5

/-- Round trip: parsing the escaped body of a JSON string literal recovers
the original string and leaves the input after the closing quote. -/
theorem parse_jsonEscape : ∀ (s rest : List Char),
    parseJsonString ((s.map jsonEscapeChar).flatten ++ '"' :: rest)
      = some (s, rest)
  | [], rest => by
    simp only [List.map_nil, List.flatten_nil, List.nil_append]
    rw [parseJsonString.eq_def]
    simp
  | c :: s', rest => by
    have IH := parse_jsonEscape s' rest
    simp only [List.map_cons, List.flatten_cons, List.append_assoc]
    rw [jsonEscapeChar]
    split_ifs with h1 h2 h3 h4 h5 h6 h7 h8
    · subst h1
      rw [List.cons_append, List.cons_append, parseJsonString.eq_def]
      simp [unescapeChar, IH]
    · subst h2
      rw [List.cons_append, List.cons_append, parseJsonString.eq_def]
      simp [unescapeChar, IH]
    · subst h3
      rw [List.cons_append, List.cons_append, parseJsonString.eq_def]
      simp [unescapeChar, IH]
    · subst h4
      rw [List.cons_append, List.cons_append, parseJsonString.eq_def]
      simp [unescapeChar, IH]
    · subst h5
      rw [List.cons_append, List.cons_append, parseJsonString.eq_def]
      simp [unescapeChar, IH]
    · subst h6
      rw [List.cons_append, List.cons_append, parseJsonString.eq_def]
      simp [unescapeChar, IH]
    · subst h7
      rw [List.cons_append, List.cons_append, parseJsonString.eq_def]
      simp [unescapeChar, IH]
    · simp only [List.cons_append, List.nil_append]
      rw [parseJsonString.eq_def]
      have hv0 : hexVal '0' = some 0 := by decide
      have hv1 := hexVal_hexDigit (c.toNat / 16) (by omega)
      have hv2 := hexVal_hexDigit (c.toNat % 16) (Nat.mod_lt _ (by omega))
      have harith : ((0 * 16 + 0) * 16 + c.toNat / 16) * 16 + c.toNat % 16
          = c.toNat := by omega
      simp [hv0, hv1, hv2, IH, harith, Char.ofNat_toNat]
      rw [show c.toNat / 16 * 16 + c.toNat % 16 = c.toNat by omega, Char.ofNat_toNat]
    · rw [List.cons_append, parseJsonString.eq_def]
      simp [h1, h2, IH]

/-! ### The streamed chunks and their SSE framing -/

/-- The chunks relayed by `chatController.sendMessageStream`: `content`
carries a token delta; `sources` carries the retrieved sources array, kept
as its `JSON.stringify` serialization (an opaque one-line JSON value,
since its numeric scores live outside this embedding); the final `done`
chunk carries the saved assistant message id. -/
inductive SseEvent
  | content (data : List Char)
  | sources (dataJson : List Char)
  | done (messageId : List Char)
  deriving Repr, DecidableEq

/-- `JSON.stringify(chunk)` for the three chunk shapes the controller
writes (lines 264-281 of `chat.controller.ts`); key order follows the
object literals in the source. -/
def encodePayload : SseEvent → List Char
  | .content s => "\x7b\"type\":\"content\",\"data\":".toList ++ jsonString s ++ ['}']
  | .sources j => "\x7b\"type\":\"sources\",\"data\":".toList ++ j ++ ['}']
  | .done mid =>
      "\x7b\"type\":\"done\",\"data\":\x7b\"messageId\":".toList
        ++ jsonString mid ++ ['}', '}']

/-- The `"data: "` marker the server writes and the client\x27s
`line.startsWith("data: ")` checks. -/
def dataMark : List Char := "data: ".toList

/-- One frame: `res.write("data: " + JSON.stringify(chunk) + "\n\n")`. -/
def sseFrame (e : SseEvent) : List Char := dataMark ++ encodePayload e ++ nn

/-- The byte stream the streaming endpoint writes for a run of chunks. -/
def sseWire (events : List SseEvent) : List Char := (events.map sseFrame).flatten

/-- What the client dispatches on after `JSON.parse`: the `type` field
and, for `content`, the decoded `data` string (for `sources`, the
serialized array). -/
inductive ClientEvent
  | contentEv (data : List Char)
  | sourcesEv (dataJson : List Char)
  | doneEv
  deriving Repr, DecidableEq

/-- Leading characters of a serialized `content` chunk, up to and
including the opening quote of its `data` value. -/
def contentMark : List Char := "\x7b\"type\":\"content\",\"data\":\"".toList

/-- Leading characters of a serialized `sources` chunk. -/
def sourcesMark : List Char := "\x7b\"type\":\"sources\",".toList

/-- Leading characters of a serialized `done` chunk. -/
def doneMark : List Char := "\x7b\"type\":\"done\",".toList

/-- `JSON.parse` plus the `data.type` dispatch of the client, specialised
to the canonical payloads `JSON.stringify` produces for the three chunk
shapes: the `type` is determined by the leading characters; a `content`
payload has its `data` string literal decoded; a `sources` payload keeps
the serialized `data` value (the characters between `"data":` and the
closing brace). -/
def parsePayload (p : List Char) : Option ClientEvent :=
  if contentMark.isPrefixOf p then
    match parseJsonString (p.drop contentMark.length) with
    | some (s, r) => if r = ['}'] then some (.contentEv s) else none
    | none => none
  else if sourcesMark.isPrefixOf p then
    some (.sourcesEv ((p.drop (sourcesMark.length + 7)).dropLast))
  else if doneMark.isPrefixOf p then
    some .doneEv
  else none

/-- One client line (lines 87-99 of `use-chat-streaming.ts`):
`line.startsWith("data: ")`, then `JSON.parse(line.slice(6))` dispatched
on `type`; parse failures are swallowed by `try ... catch`. -/
def parseEventLine (line : List Char) : Option ClientEvent :=
  if dataMark.isPrefixOf line then parsePayload (line.drop 6) else none

/-- The view of a server chunk the client ends up with. -/
def eventView : SseEvent → ClientEvent
  | .content s => .contentEv s
  | .sources j => .sourcesEv j
  | .done _ => .doneEv

theorem isPrefixOf_self_append : ∀ (a x : List Char), a.isPrefixOf (a ++ x) = true
  | [], _ => by simp [List.isPrefixOf]
  | c :: a, x => by simp [List.isPrefixOf, isPrefixOf_self_append a x]

/-- A serialized payload contains no raw newline (for `sources`, provided
its serialized array has none — `JSON.stringify` never emits raw
newlines). -/
theorem encodePayload_no_newline (e : SseEvent)
    (hj : ∀ j, e = SseEvent.sources j → '\n' ∉ j) :
    '\n' ∉ encodePayload e := by
  cases e with
  | content s =>
    intro hmem
    rw [encodePayload] at hmem
    rcases List.mem_append.mp hmem with hmem | hmem
    · rcases List.mem_append.mp hmem with hmem | hmem
      · simp at hmem
      · rw [jsonString] at hmem
        rcases List.mem_cons.mp hmem with hmem | hmem
        · exact absurd hmem.symm (by decide)
        · rcases List.mem_append.mp hmem with hmem | hmem
          · obtain ⟨l, hl, hmem⟩ := List.mem_flatten.mp hmem
            obtain ⟨c, -, rfl⟩ := List.mem_map.mp hl
            exact jsonEscapeChar_ne_newline c _ hmem rfl
          · simp at hmem
    · simp at hmem
  | sources j =>
    intro hmem
    rw [encodePayload] at hmem
    rcases List.mem_append.mp hmem with hmem | hmem
    · rcases List.mem_append.mp hmem with hmem | hmem
      · simp at hmem
      · exact hj j rfl hmem
    · simp at hmem
  | done mid =>
    intro hmem
    rw [encodePayload] at hmem
    rcases List.mem_append.mp hmem with hmem | hmem
    · rcases List.mem_append.mp hmem with hmem | hmem
      · simp at hmem
      · rw [jsonString] at hmem
        rcases List.mem_cons.mp hmem with hmem | hmem
        · exact absurd hmem.symm (by decide)
        · rcases List.mem_append.mp hmem with hmem | hmem
          · obtain ⟨l, hl, hmem⟩ := List.mem_flatten.mp hmem
            obtain ⟨c, -, rfl⟩ := List.mem_map.mp hl
            exact jsonEscapeChar_ne_newline c _ hmem rfl
          · simp at hmem
    · simp at hmem

/-- Decoding a framed line recovers the client view of the chunk. -/
theorem parseEventLine_frame (e : SseEvent) :
    parseEventLine (dataMark ++ encodePayload e) = some (eventView e) := by
  rw [parseEventLine, if_pos (isPrefixOf_self_append _ _)]
  rw [show (6 : Nat) = dataMark.length from rfl, List.drop_left]
  cases e with
  | content s =>
    have heq : encodePayload (.content s)
        = contentMark ++ ((s.map jsonEscapeChar).flatten ++ '"' :: ['}']) := by
      rw [encodePayload, jsonString, contentMark]
      simp
    rw [heq, parsePayload, if_pos (isPrefixOf_self_append _ _), List.drop_left,
      parse_jsonEscape]
    simp [eventView]
  | sources j =>
    have heq : encodePayload (.sources j)
        = (sourcesMark ++ "\"data\":".toList) ++ (j ++ ['}']) := by
      rw [encodePayload, sourcesMark]
      simp
    have hnc : contentMark.isPrefixOf (encodePayload (.sources j)) = false := by
      rw [heq]
      simp [contentMark, sourcesMark, List.isPrefixOf]
    have hp : sourcesMark.isPrefixOf
        ((sourcesMark ++ "\"data\":".toList) ++ (j ++ ['}'])) = true := by
      rw [List.append_assoc]
      exact isPrefixOf_self_append _ _
    rw [parsePayload, hnc, if_neg (by simp)]
    rw [heq, if_pos hp]
    rw [show sourcesMark.length + 7 = (sourcesMark ++ "\"data\":".toList).length
        from rfl, List.drop_left]
    simp [eventView]
  | done mid =>
    have heq : encodePayload (.done mid)
        = doneMark ++ ("\"data\":\x7b\"messageId\":".toList
            ++ jsonString mid ++ ['}', '}']) := by
      rw [encodePayload, doneMark]
      simp
    have hnc : contentMark.isPrefixOf (encodePayload (.done mid)) = false := by
      rw [heq]
      simp [contentMark, doneMark, List.isPrefixOf]
    have hns : sourcesMark.isPrefixOf (encodePayload (.done mid)) = false := by
      rw [heq]
      simp [sourcesMark, doneMark, List.isPrefixOf]
    rw [parsePayload, hnc, if_neg (by simp), hns, if_neg (by simp)]
    rw [heq, if_pos (isPrefixOf_self_append _ _)]
    simp [eventView]

/-! ### The client read loop -/

/-- The sources as the client stores them (the `Source` interface of
`use-chat-streaming.ts`). -/
structure HookSource where
  id : String
  content : String
  score : ℚ
  documentId : String
  deriving Repr, DecidableEq

/-- The client\x27s in-flight state during the read loop: the undelivered
buffer and the two pieces of state the loop writes (`streamingContent`
and `streamingSources`). -/
structure ClientStreamState where
  buffer : List Char
  streamingContent : List Char
  streamingSources : List HookSource
  deriving Repr, DecidableEq

/-- Handling one complete part (lines 86-103 of `use-chat-streaming.ts`):
`content` appends to `streamingContent`, `sources` replaces
`streamingSources` (its `JSON.parse` is the abstract `decodeSources`),
`done` only triggers external side effects (query invalidation,
`onComplete`), and lines that fail to parse are ignored. -/
def lineStep (decodeSources : List Char → List HookSource)
    (st : ClientStreamState) (line : List Char) : ClientStreamState :=
  match parseEventLine line with
  | some (.contentEv s) => { st with streamingContent := st.streamingContent ++ s }
  | some (.sourcesEv j) => { st with streamingSources := decodeSources j }
  | some .doneEv => st
  | none => st

/-- One iteration of the read loop (lines 78-104): append the decoded
chunk to the buffer, split on `"\n\n"`, keep the last piece as the new
buffer, handle each complete part. -/
def readChunkStep (decodeSources : List Char → List HookSource)
    (st : ClientStreamState) (chunk : List Char) : ClientStreamState :=
  (scanNN [] (st.buffer ++ chunk)).1.foldl (lineStep decodeSources)
    { st with buffer := (scanNN [] (st.buffer ++ chunk)).2 }

/-- The whole read loop over the sequence of reads the network delivers,
from the fresh state the hook sets up before reading. -/
def runStream (decodeSources : List Char → List HookSource)
    (chunks : List (List Char)) : ClientStreamState :=
  chunks.foldl (readChunkStep decodeSources)
    { buffer := [], streamingContent := [], streamingSources := [] }

/-- The `data` payloads of the `content` chunks, in order. -/
def contentPayloads : List SseEvent → List (List Char) :=
  List.filterMap (fun e => match e with
    | SseEvent.content s => some s
    | _ => none)

theorem lineStep_buffer (d : List Char → List HookSource)
    (st : ClientStreamState) (line : List Char) :
    (lineStep d st line).buffer = st.buffer := by
  rw [lineStep]
  rcases parseEventLine line with - | e
  · rfl
  · cases e <;> rfl

theorem foldl_lineStep_buffer (d : List Char → List HookSource) :
    ∀ (lines : List (List Char)) (st : ClientStreamState),
      (lines.foldl (lineStep d) st).buffer = st.buffer
  | [], st => rfl
  | l :: ls, st => by
    rw [List.foldl_cons, foldl_lineStep_buffer d ls, lineStep_buffer]

theorem lineStep_setBuffer (d : List Char → List HookSource)
    (st : ClientStreamState) (b line : List Char) :
    lineStep d { st with buffer := b } line
      = { lineStep d st line with buffer := b } := by
  rw [lineStep, lineStep]
  rcases parseEventLine line with - | e
  · rfl
  · cases e <;> rfl

theorem foldl_lineStep_setBuffer (d : List Char → List HookSource) :
    ∀ (lines : List (List Char)) (st : ClientStreamState) (b : List Char),
      lines.foldl (lineStep d) { st with buffer := b }
        = { lines.foldl (lineStep d) st with buffer := b }
  | [], st, b => rfl
  | l :: ls, st, b => by
    rw [List.foldl_cons, List.foldl_cons, lineStep_setBuffer,
      foldl_lineStep_setBuffer d ls]

/-- Re-chunking invariance of the read loop: however the wire bytes are
cut into reads, the loop behaves like a single scan of the whole stream,
provided the starting buffer holds no complete frame. -/
theorem foldl_readChunkStep (d : List Char → List HookSource) :
    ∀ (chunks : List (List Char)) (st : ClientStreamState),
      scanNN [] st.buffer = ([], st.buffer) →
      chunks.foldl (readChunkStep d) st
        = (scanNN [] (st.buffer ++ chunks.flatten)).1.foldl (lineStep d)
            { st with buffer := (scanNN [] (st.buffer ++ chunks.flatten)).2 }
  | [], st, hbuf => by
    rw [List.flatten_nil, List.append_nil, hbuf]
    rfl
  | c :: cs, st, hbuf => by
    rcases hp : scanNN [] (st.buffer ++ c) with ⟨ps, r⟩
    have hrbuf : scanNN [] r = ([], r) := by
      have h := scanNN_snd_scan (st.buffer ++ c)
      rw [hp] at h
      exact h
    have hst1buf : (ps.foldl (lineStep d) { st with buffer := r }).buffer = r :=
      foldl_lineStep_buffer d ps _
    have hIH := foldl_readChunkStep d cs
      (ps.foldl (lineStep d) { st with buffer := r })
      (by rw [hst1buf]; exact hrbuf)
    rw [hst1buf] at hIH
    rcases hq : scanNN [] (r ++ cs.flatten) with ⟨qs, r2⟩
    rw [hq] at hIH
    have hQ : scanNN [] (st.buffer ++ (c :: cs).flatten) = (ps ++ qs, r2) := by
      rw [List.flatten_cons,
        show st.buffer ++ (c ++ cs.flatten) = (st.buffer ++ c) ++ cs.flatten from
          (List.append_assoc _ _ _).symm,
        scanNN_append (st.buffer ++ c) cs.flatten, hp, hq]
    rw [List.foldl_cons, readChunkStep, hp, hIH, hQ]
    simp only [List.flatten_cons]
    rw [List.foldl_append]
    congr 1
    rw [foldl_lineStep_setBuffer d ps st r, foldl_lineStep_setBuffer d ps st r2]

/-- A scan of a frame body followed by the separator emits exactly the
body, provided it contains no raw newline. -/
theorem scanNN_body : ∀ (b rest : List Char), '\n' ∉ b →
    scanNN [] (b ++ '\n' :: '\n' :: rest)
      = (b :: (scanNN [] rest).1, (scanNN [] rest).2)
  | [], rest, _ => by
    rw [List.nil_append, scanNN, if_pos (by simp)]
    simp
  | c :: b', rest, hb => by
    have hc : c ≠ '\n' := fun h => hb (h ▸ List.mem_cons_self c b')
    have hb' : '\n' ∉ b' := fun h => hb (List.mem_cons_of_mem c h)
    rw [List.cons_append, scanNN_cons_of_neg (by simp [hc])]
    rw [scanNN_body b' rest hb']
    simp [consAcc]

/-- Scanning a whole sequence of frames yields exactly the frame bodies
and an empty remainder. -/
theorem scanNN_frames : ∀ (bodies : List (List Char)),
    (∀ b ∈ bodies, '\n' ∉ b) →
    scanNN [] ((bodies.map (· ++ nn)).flatten) = (bodies, [])
  | [], _ => by simp [scanNN]
  | b :: bs, h => by
    rw [List.map_cons, List.flatten_cons]
    rw [show (b ++ nn) ++ (bs.map (· ++ nn)).flatten
        = b ++ '\n' :: '\n' :: (bs.map (· ++ nn)).flatten by
      rw [List.append_assoc]; rfl]
    rw [scanNN_body b _ (h b (List.mem_cons_self _ _))]
    rw [scanNN_frames bs (fun x hx => h x (List.mem_cons_of_mem _ hx))]

/-- Folding the client line handler over a run of framed lines appends
exactly the `content` payloads to `streamingContent`. -/
theorem foldl_lineStep_frames (d : List Char → List HookSource) :
    ∀ (events : List SseEvent) (st : ClientStreamState),
      ((events.map (fun e => dataMark ++ encodePayload e)).foldl
          (lineStep d) st).streamingContent
        = st.streamingContent ++ (contentPayloads events).flatten
  | [], st => by simp [contentPayloads]
  | e :: es, st => by
    rw [List.map_cons, List.foldl_cons, foldl_lineStep_frames d es]
    cases e with
    | content s =>
      rw [lineStep, parseEventLine_frame]
      simp [eventView, contentPayloads]
    | sources j =>
      rw [lineStep, parseEventLine_frame]
      simp [eventView, contentPayloads]
    | done mid =>
      rw [lineStep, parseEventLine_frame]
      simp [eventView, contentPayloads]

/-- **C3.** Every event written by the streaming endpoint is exactly
`"data: "` followed by a one-line JSON object whose `type` is `content`,
`sources` or `done`, terminated by two newlines; and for every
segmentation of that byte stream into reads, the client splits on double
newlines, parses each complete part, and ends with `streamingContent`
equal to the concatenation of all `content` payloads in order (and an
empty buffer).  The only assumption is that the serialized sources arrays
contain no raw newline, which `JSON.stringify` guarantees. -/
theorem sse_frames_and_client_reassembly
    (decodeSources : List Char → List HookSource) (events : List SseEvent)
    (hs : ∀ j, SseEvent.sources j ∈ events → '\n' ∉ j)
    (chunks : List (List Char)) (hchunks : chunks.flatten = sseWire events) :
    (∀ e ∈ events,
        sseFrame e = dataMark ++ encodePayload e ++ nn
        ∧ '\n' ∉ encodePayload e
        ∧ parseEventLine (dataMark ++ encodePayload e) = some (eventView e))
    ∧ (runStream decodeSources chunks).streamingContent
        = (contentPayloads events).flatten
    ∧ (runStream decodeSources chunks).buffer = [] := by
  have hnoNL : ∀ e ∈ events, '\n' ∉ encodePayload e := by
    intro e he
    refine encodePayload_no_newline e ?_
    intro j hj
    exact hs j (hj ▸ he)
  have hbodies : ∀ b ∈ events.map (fun e => dataMark ++ encodePayload e), '\n' ∉ b := by
    intro b hb
    obtain ⟨e, he, rfl⟩ := List.mem_map.mp hb
    intro hmem
    rcases List.mem_append.mp hmem with hmem | hmem
    · simp [dataMark] at hmem
    · exact hnoNL e he hmem
  have hwire : chunks.flatten
      = ((events.map (fun e => dataMark ++ encodePayload e)).map (· ++ nn)).flatten := by
    rw [hchunks, sseWire, List.map_map]
    rfl
  have hrun := foldl_readChunkStep decodeSources chunks
    { buffer := [], streamingContent := [], streamingSources := [] } (by rw [scanNN])
  rw [List.nil_append, hwire,
    scanNN_frames _ hbodies] at hrun
  refine ⟨?_, ?_, ?_⟩
  · intro e he
    exact ⟨rfl, hnoNL e he, parseEventLine_frame e⟩
  · rw [runStream, hrun, foldl_lineStep_frames]
    simp
  · rw [runStream, hrun, foldl_lineStep_buffer]

/-- Concrete sources decoder for witnesses. -/
def cDecode : List Char → List HookSource := fun _ => []

/-- Concrete event sequence for the C3 witness: two content deltas, a
sources array, and the final done event. -/
def cEvents : List SseEvent :=
  [SseEvent.content "Hi".toList, SseEvent.sources "[]".toList,
   SseEvent.content "!".toList, SseEvent.done "m1".toList]

/-- Witness for C3: the concrete wire cut at byte 7 (mid-frame) is
reassembled into the concatenated content payloads with an empty final
buffer, and a concrete frame parses back to its event. -/
theorem sse_frames_and_client_reassembly_witness :
    (runStream cDecode
        [(sseWire cEvents).take 7, (sseWire cEvents).drop 7]).streamingContent
      = (contentPayloads cEvents).flatten
    ∧ (runStream cDecode
        [(sseWire cEvents).take 7, (sseWire cEvents).drop 7]).buffer = []
    ∧ parseEventLine (dataMark ++ encodePayload (SseEvent.content "Hi".toList))
      = some (eventView (SseEvent.content "Hi".toList)) := by
  obtain ⟨h1, h2, h3⟩ := sse_frames_and_client_reassembly cDecode cEvents
    (by
      intro j hj
      simp [cEvents] at hj
      subst hj
      decide)
    [(sseWire cEvents).take 7, (sseWire cEvents).drop 7]
    (by simp)
  exact ⟨h2, h3, (h1 _ (by simp [cEvents])).2.2⟩

/-! ## The `useChatStreaming` hook (`use-chat-streaming.ts`, C7) -/

/-- What a thrown JS value looks like to the catch block: an `Error`
carrying a message, or any other thrown value. -/
inductive ThrownValue
  | jsError (message : String)
  | otherValue
  deriving Repr, DecidableEq

/-- `err instanceof Error ? err.message : "Failed to get response"`
(line 106). -/
def errorText : ThrownValue → String
  | .jsError m => m
  | .otherValue => "Failed to get response"

/-- How the fetch and read loop can go, as seen by the `try` block: the
fetch rejects; the response is not ok (line 68 throws); the response has
no body (line 73 throws); or the reader delivers chunks and then either
ends cleanly or throws mid-read. -/
inductive FetchOutcome
  | rejected (err : ThrownValue)
  | notOk
  | noBody
  | streamed (chunks : List (List Char)) (readError : Option ThrownValue)
  deriving Repr, DecidableEq

/-- The state surfaced by `useChatStreaming`. -/
structure HookState where
  isStreaming : Bool
  streamingContent : List Char
  streamingSources : List HookSource
  pendingUserMessage : Option (List Char)
  error : Option String
  deriving Repr, DecidableEq

/-- `useChatStreaming.sendMessage` (lines 49-113) as a function of the
fetch outcome: the initial `set*` calls (lines 51-55), the `try` block
(the read loop, modelled by `runStream`; the thrown `Error`s of lines 69
and 73 become their messages), the `catch` (line 106 sets `error`), and
the `finally` (lines 108-111 clear `isStreaming`, `streamingContent`,
`streamingSources` and `pendingUserMessage`; `error` is left as set). -/
def sendMessageRun (decodeSources : List Char → List HookSource)
    (content : List Char) (outcome : FetchOutcome) : HookState :=
  let st0 : HookState :=
    { isStreaming := true, streamingContent := [], streamingSources := [],
      pendingUserMessage := some content, error := none }
  let afterTry : HookState × Option String :=
    match outcome with
    | .rejected e => (st0, some (errorText e))
    | .notOk => (st0, some (errorText (.jsError "Failed to send message")))
    | .noBody => (st0, some (errorText (.jsError "No response body")))
    | .streamed chunks readErr =>
        ({ st0 with
            streamingContent := (runStream decodeSources chunks).streamingContent
            streamingSources := (runStream decodeSources chunks).streamingSources },
         readErr.map errorText)
  { afterTry.1 with
    isStreaming := false
    streamingContent := []
    streamingSources := []
    pendingUserMessage := none
    error := afterTry.2 }

/-- **C7.** Every failure of a streamed chat request (failed fetch,
non-ok response, missing body, or read error) leaves `error` set to a
single message string, and in all cases — success or failure — the hook
ends with the in-flight streaming state cleared: `isStreaming` false,
`streamingContent` empty, `streamingSources` empty, and
`pendingUserMessage` null. -/
theorem sendMessage_error_and_clear
    (decodeSources : List Char → List HookSource) (content : List Char)
    (outcome : FetchOutcome) :
    (sendMessageRun decodeSources content outcome).isStreaming = false
    ∧ (sendMessageRun decodeSources content outcome).streamingContent = []
    ∧ (sendMessageRun decodeSources content outcome).streamingSources = []
    ∧ (sendMessageRun decodeSources content outcome).pendingUserMessage = none
    ∧ (outcome = .notOk →
        (sendMessageRun decodeSources content outcome).error
          = some "Failed to send message")
    ∧ (outcome = .noBody →
        (sendMessageRun decodeSources content outcome).error
          = some "No response body")
    ∧ (∀ e, outcome = .rejected e →
        (sendMessageRun decodeSources content outcome).error
          = some (errorText e))
    ∧ (∀ chunks e, outcome = .streamed chunks (some e) →
        (sendMessageRun decodeSources content outcome).error
          = some (errorText e))
    ∧ (∀ chunks, outcome = .streamed chunks none →
        (sendMessageRun decodeSources content outcome).error = none) := by
  refine ⟨?_, ?_, ?_, ?_, ?_, ?_, ?_, ?_, ?_⟩
  · cases outcome <;> simp [sendMessageRun, errorText]
  · cases outcome <;> simp [sendMessageRun, errorText]
  · cases outcome <;> simp [sendMessageRun, errorText]
  · cases outcome <;> simp [sendMessageRun, errorText]
  · cases outcome <;> simp [sendMessageRun, errorText]
  · cases outcome <;> simp [sendMessageRun, errorText]
  · intro e heq
    subst heq
    simp [sendMessageRun]
  · intro chunks e heq
    subst heq
    simp [sendMessageRun]
  · intro chunks heq
    subst heq
    simp [sendMessageRun]

/-- Witness for C7 at concrete outcomes: a non-ok response and a clean
two-chunk stream. -/
theorem sendMessage_error_and_clear_witness :
    (sendMessageRun cDecode "go".toList FetchOutcome.notOk).error
      = some "Failed to send message"
    ∧ (sendMessageRun cDecode "go".toList FetchOutcome.notOk).isStreaming = false
    ∧ (sendMessageRun cDecode "go".toList
        (FetchOutcome.streamed [(sseWire cEvents).take 7,
          (sseWire cEvents).drop 7] none)).error = none
    ∧ (sendMessageRun cDecode "go".toList
        (FetchOutcome.streamed [(sseWire cEvents).take 7,
          (sseWire cEvents).drop 7] none)).streamingContent = []
    ∧ (sendMessageRun cDecode "go".toList
        (FetchOutcome.rejected (ThrownValue.jsError "network down"))).error
      = some "network down" := by
  obtain ⟨ha1, -, -, -, ha5, -, -, -, -⟩ :=
    sendMessage_error_and_clear cDecode "go".toList FetchOutcome.notOk
  obtain ⟨-, hb2, -, -, -, -, -, -, hb9⟩ :=
    sendMessage_error_and_clear cDecode "go".toList
      (FetchOutcome.streamed [(sseWire cEvents).take 7,
        (sseWire cEvents).drop 7] none)
  obtain ⟨-, -, -, -, -, -, hc7, -, -⟩ :=
    sendMessage_error_and_clear cDecode "go".toList
      (FetchOutcome.rejected (ThrownValue.jsError "network down"))
  exact ⟨ha5 rfl, ha1, hb9 _ rfl, hb2,
    (hc7 (ThrownValue.jsError "network down") rfl).trans (by rw [errorText])⟩

end VChat
